import Mathlib

set_option maxRecDepth 40000

/-!
Shallow embedding of the Franchise-Evaluator application (src/app.py).

Strings are modelled as `List Char`; file bytes as `List Nat`.  The
Streamlit framework, the PDF and Word extraction libraries and the
Anthropic client are external collaborators: their observable behaviour
at the call sites of src/app.py is passed in explicitly (library call
outcomes as `Except`-valued fields, the default-heuristics resource file
as an `Option (List Char)` environment, the secret store as a record).
All definitions mirror the Python source line by line; analysis-side
definitions used only to state theorems are marked as such.
-/

/-- Python `str.split(sep)` for a one-character separator: every
occurrence splits, empty segments are kept, the result is never empty. -/
def splitOnChar (c : Char) : List Char → List (List Char)
  | [] => [[]]
  | a :: rest =>
    if a = c then [] :: splitOnChar c rest
    else match splitOnChar c rest with
      | [] => [[a]]
      | seg :: segs => (a :: seg) :: segs

/-- Python `sep.join(xs)`: the segments joined with `sep` between
consecutive elements (no trailing separator). -/
def strJoin (sep : List Char) : List (List Char) → List Char
  | [] => []
  | [x] => x
  | x :: y :: rest => x ++ sep ++ strJoin sep (y :: rest)

/-- Python dict lookup `m[k]` as an association-list lookup (insertion
order preserved, first matching key wins; keys are unique by
construction of `dictUpdate`). -/
def lookupD {α β : Type} [DecidableEq α] : List (α × β) → α → Option β
  | [], _ => none
  | (k0, v0) :: rest, k => if k0 = k then some v0 else lookupD rest k

/-- Python dict assignment `m[k] = v`: an existing key keeps its
position and gets the new value, a new key is appended at the end. -/
def dictUpdate {α β : Type} [DecidableEq α] : List (α × β) → α → β → List (α × β)
  | [], k, v => [(k, v)]
  | (k0, v0) :: rest, k, v =>
    if k0 = k then (k0, v) :: rest else (k0, v0) :: dictUpdate rest k v

/-- True exactly when `b` is a UTF-8 continuation byte (0x80 - 0xBF). -/
def utf8Cont (b : Nat) : Bool := decide (0x80 ≤ b ∧ b ≤ 0xBF)

/-- Admissible second byte of a three-byte UTF-8 sequence headed by
`b1` (narrowed ranges for 0xE0 and 0xED, excluding surrogates). -/
def utf8Cont3 (b1 b2 : Nat) : Bool :=
  if b1 = 0xE0 then decide (0xA0 ≤ b2 ∧ b2 ≤ 0xBF)
  else if b1 = 0xED then decide (0x80 ≤ b2 ∧ b2 ≤ 0x9F)
  else utf8Cont b2

/-- Admissible second byte of a four-byte UTF-8 sequence headed by
`b1` (narrowed ranges for 0xF0 and 0xF4). -/
def utf8Cont4 (b1 b2 : Nat) : Bool :=
  if b1 = 0xF0 then decide (0x90 ≤ b2 ∧ b2 ≤ 0xBF)
  else if b1 = 0xF4 then decide (0x80 ≤ b2 ∧ b2 ≤ 0x8F)
  else utf8Cont b2

/-- Output of the decoder on one ill-formed maximal subpart: U+FFFD in
replace mode (`repl = true`), nothing in ignore mode (`repl = false`). -/
def utf8Err (repl : Bool) : List Char := if repl then [Char.ofNat 0xFFFD] else []

/-- One decoding step on the first byte `b1` with remaining input
`rest`: the emitted characters and how many further bytes of `rest`
were consumed beyond `b1`.  On an ill-formed sequence the step emits
the error output for the maximal subpart consumed and resumes at the
offending byte. -/
def utf8Step (repl : Bool) (b1 : Nat) (rest : List Nat) : List Char × Nat :=
  if b1 ≤ 0x7F then ([Char.ofNat b1], 0)
  else if 0xC2 ≤ b1 ∧ b1 ≤ 0xDF then
    match rest with
    | [] => (utf8Err repl, 0)
    | b2 :: _ =>
      if utf8Cont b2 then ([Char.ofNat ((b1 - 0xC0) * 0x40 + (b2 - 0x80))], 1)
      else (utf8Err repl, 0)
  else if 0xE0 ≤ b1 ∧ b1 ≤ 0xEF then
    match rest with
    | [] => (utf8Err repl, 0)
    | b2 :: rest2 =>
      if utf8Cont3 b1 b2 then
        match rest2 with
        | [] => (utf8Err repl, 1)
        | b3 :: _ =>
          if utf8Cont b3 then
            ([Char.ofNat ((b1 - 0xE0) * 0x1000 + (b2 - 0x80) * 0x40 + (b3 - 0x80))], 2)
          else (utf8Err repl, 1)
      else (utf8Err repl, 0)
  else if 0xF0 ≤ b1 ∧ b1 ≤ 0xF4 then
    match rest with
    | [] => (utf8Err repl, 0)
    | b2 :: rest2 =>
      if utf8Cont4 b1 b2 then
        match rest2 with
        | [] => (utf8Err repl, 1)
        | b3 :: rest3 =>
          if utf8Cont b3 then
            match rest3 with
            | [] => (utf8Err repl, 2)
            | b4 :: _ =>
              if utf8Cont b4 then
                ([Char.ofNat ((b1 - 0xF0) * 0x40000 + (b2 - 0x80) * 0x1000 +
                    (b3 - 0x80) * 0x40 + (b4 - 0x80))], 3)
              else (utf8Err repl, 2)
          else (utf8Err repl, 1)
      else (utf8Err repl, 0)
  else (utf8Err repl, 0)

/-- Decoding loop with explicit fuel; each step consumes at least the
first byte, so `bs.length` fuel always suffices. -/
def utf8DecodeAux (repl : Bool) : Nat → List Nat → List Char
  | 0, _ => []
  | _ + 1, [] => []
  | fuel + 1, b1 :: rest =>
    let step := utf8Step repl b1 rest
    step.1 ++ utf8DecodeAux repl fuel (rest.drop step.2)

/-- Python `bytes.decode("utf-8", errors = mode)` with `mode` either
`ignore` (`repl = false`, undecodable maximal subparts are dropped) or
`replace` (`repl = true`, each becomes one U+FFFD).  Follows the
standard UTF-8 acceptance ranges. -/
def utf8Decode (repl : Bool) (bs : List Nat) : List Char :=
  utf8DecodeAux repl bs.length bs

deriving instance DecidableEq for Except

/-- One uploaded file as seen by `extract_text_from_file`: its name, its
raw bytes (consumed by the txt/md branch), and the outcomes of the two
extraction-library calls made on it (`PyPDF2` page texts, `python-docx`
paragraph texts), each either the extracted pieces or the message of the
exception the library raises on this file. -/
structure UploadedFile where
  name : List Char
  bytes : List Nat
  pdfPages : Except (List Char) (List (List Char))
  docParas : Except (List Char) (List (List Char))
deriving DecidableEq

/-- Line 93 of app.py: `file.name.split(".")[-1].lower()`.
`Char.toLower` models Python `str.lower` on the ASCII range. -/
def fileExtension (name : List Char) : List Char :=
  (((splitOnChar '.' name).getLastD []).map Char.toLower)

/-- Lines 92-137 of app.py, `extract_text_from_file`: dispatch on the
lowercased extension; txt/md decodes the bytes as UTF-8 with
`errors="ignore"`; pdf joins the page texts with a blank line or yields
the bracketed PDF error marker; docx/doc joins the paragraph texts with
newlines or yields the bracketed DOCX error marker; anything else yields
the unsupported-type marker.  (The `st.error` progress calls are UI-only
side effects and carry no data.) -/
def extract_text_from_file (file : UploadedFile) : List Char :=
  let file_extension := fileExtension file.name
  if file_extension = "txt".toList ∨ file_extension = "md".toList then
    utf8Decode false file.bytes
  else if file_extension = "pdf".toList then
    match file.pdfPages with
    | .ok pages => strJoin ("\n\n".toList) pages
    | .error e => "[Error extracting text from PDF: ".toList ++ e ++ "]".toList
  else if file_extension = "docx".toList ∨ file_extension = "doc".toList then
    match file.docParas with
    | .ok paras => strJoin ("\n".toList) paras
    | .error e => "[Error extracting text from DOCX: ".toList ++ e ++ "]".toList
  else
    "[Unsupported file type: ".toList ++ file_extension ++ "]".toList

/-- Lines 24-34 of app.py: the embedded fallback heuristics model,
`json.dumps` of the six fixed dimension names (default separators). -/
def fallbackHeuristics : List Char :=
  ("\x7b\"name\": \"Spinelli Heuristics Model\", \"dimensions\": [\"Market Opportunity Assessment\", \"Value Creation & Brand Positioning\", \"Operational Excellence & Knowledge Transfer\", \"Financial Structure & Alignment\", \"Leadership & Support Systems\", \"Adaptability & Growth Potential\"]\x7d").toList

/-- Lines 16-34 of app.py, `load_default_heuristics`: `env` is the
outcome of reading the resource file `spinelli_heuristics_model`
(`none` when opening or reading it raises); on failure the function
warns and returns the embedded fallback instead of raising. -/
def load_default_heuristics (env : Option (List Char)) : List Char :=
  match env with
  | some s => s
  | none => fallbackHeuristics

/-- Line 144 of app.py: the per-document block
`<document>\n<source>NAME</source>\n<document_content>TEXT</document_content>\n</document>\n\n`. -/
def documentBlock (file_name file_content : List Char) : List Char :=
  "<document>\n<source>".toList ++ file_name ++
    "</source>\n<document_content>".toList ++ file_content ++
    "</document_content>\n</document>\n\n".toList

/-- Lines 142-144 of app.py: the concatenation of the blocks of all
documents in insertion order of the dict. -/
def documentContent : List (List Char × List Char) → List Char
  | [] => []
  | (file_name, file_content) :: rest =>
    documentBlock file_name file_content ++ documentContent rest

/-- The fixed head of the prompt f-string (line 154-156 of app.py),
up to the interpolated document content. -/
def promptIntro : List Char := "\n<documents>\n".toList

/-- The fixed middle of the prompt f-string (lines 157-159 of app.py),
between the document content and the interpolated heuristics model. -/
def promptAfterDocs : List Char := "\n</documents>\n\nHere is a heuristics model:\n".toList

/-- The fixed instructional suffix of the prompt f-string (lines
160-226 of app.py), after the interpolated heuristics model. -/
def promptInstructions : List Char :=
  ("\n\nI want you to create a comprehensive franchise proposal evaluation based on Dr. Spinelli\x27s heuristics framework. Please analyze the provided franchise proposal documents using the heuristics model to evaluate the franchise opportunity.\n\nYour evaluation should include:\n\n1. An analysis of the franchise opportunity across these six dimensions:\n   - Market Opportunity Assessment\n   - Value Creation & Brand Positioning\n   - Operational Excellence & Knowledge Transfer\n   - Financial Structure & Alignment\n   - Leadership & Support Systems\n   - Adaptability & Growth Potential\n\n2. For each dimension, provide:\n   - A rating (STRONG, MODERATE, or WEAK)\n   - Key strengths (2-3)\n   - Key weaknesses (2-3)\n   - Supporting quotes from both Dr. Spinelli\x27s heuristics and the franchise documents\n   - Specific recommendations (2-3)\n\n3. An overall rating (RECOMMENDED, PROCEED WITH CAUTION, or NOT RECOMMENDED)\n4. An executive summary (250-300 words)\n5. 5 final recommendations for a potential franchisee\n\nPlease structure your response in the following format:\n\n# Franchise Proposal Evaluation: [Name of Franchise]\n\n## Executive Summary\n[Your summary here]\n\n## Overall Rating: [RATING]\n\n## Detailed Analysis\n\n### Market Opportunity Assessment\n**Rating**: [STRONG/MODERATE/WEAK]\n\n**Strengths**:\n- [Strength 1]\n- [Strength 2]\n- [Strength 3]\n\n**Weaknesses**:\n- [Weakness 1]\n- [Weakness 2]\n- [Weakness 3]\n\n**Supporting Quotes**:\n- \"[Quote from Spinelli heuristic]\" — Dr. Spinelli\n- \"[Quote from franchise document]\" — Franchise Document\n\n**Recommendations**:\n- [Recommendation 1]\n- [Recommendation 2]\n- [Recommendation 3]\n\n[Repeat this structure for each dimension]\n\n## Final Recommendations\n1. [Recommendation 1]\n2. [Recommendation 2]\n3. [Recommendation 3]\n4. [Recommendation 4]\n5. [Recommendation 5]\n").toList

/-- Lines 140-228 of app.py, `create_prompt`: builds the document block
section, chooses the heuristics model (the supplied override when it is
truthy, i.e. a non-empty string, otherwise `load_default_heuristics`),
and interpolates both into the fixed prompt template.  `env` is the
default-heuristics resource state, consulted only on the fallback
path. -/
def create_prompt (env : Option (List Char))
    (franchise_files : List (List Char × List Char))
    (heuristics_content : Option (List Char)) : List Char :=
  let document_content := documentContent franchise_files
  let heuristics_model :=
    match heuristics_content with
    | some h => if h = [] then load_default_heuristics env else h
    | none => load_default_heuristics env
  promptIntro ++ document_content ++ promptAfterDocs ++ heuristics_model ++ promptInstructions

/-- Lines 292-310 of app.py: the per-file loop of the analyze action,
building the name-keyed dict `franchise_files` by extracting each file
in upload order. -/
def processFiles (files : List UploadedFile) : List (List Char × List Char) :=
  files.foldl (fun m f => dictUpdate m f.name (extract_text_from_file f)) []

/-- Analysis-side: the `source` tag open marker, as a char list. -/
def srcOpen : List Char := "source>".toList

/-- Analysis-side: the name a `<`-delimited segment contributes when it
is the interior of a `<source>` tag, i.e. when it starts with
`source>`; the rest of the segment (up to the next `<`) is the name. -/
def srcOf (seg : List Char) : Option (List Char) :=
  if srcOpen.isPrefixOf seg then some (seg.drop 7) else none

/-- Analysis-side: the names standing inside `<source>` tags of a
prompt, in order of occurrence.  The prompt is split at every `<`; a
segment beginning with `source>` is the interior of a source tag. -/
def srcNames (s : List Char) : List (List Char) :=
  (splitOnChar '<' s).filterMap srcOf

/-- The `api_keys` section of the Streamlit secret store, as read on
line 256 of app.py. -/
structure ApiKeys where
  claude : Option (List Char)
deriving DecidableEq

/-- The Streamlit secret store as consulted by app.py: possibly missing
the `api_keys` section, whose `claude` entry may in turn be missing. -/
structure SecretsStore where
  api_keys : Option ApiKeys
deriving DecidableEq

/-- Line 256 of app.py: `"api_keys" in st.secrets and "claude" in
st.secrets.api_keys`. -/
def hasClaudeKey (s : SecretsStore) : Bool :=
  match s.api_keys with
  | some ks => ks.claude.isSome
  | none => false

/-- Lines 256-263 of app.py: the credential used afterwards; the
sentinel `"not_found"` when the secret store has no claude key. -/
def getApiKey (s : SecretsStore) : List Char :=
  match s.api_keys with
  | some ks =>
    match ks.claude with
    | some k => k
    | none => "not_found".toList
  | none => "not_found".toList

/-- A Python exception surfaced by the Anthropic client code, with the
flag telling whether it is an `AttributeError` or `TypeError` (the two
classes the inner `except` on line 355 of app.py catches). -/
structure PyErr where
  msg : List Char
  isAttrOrType : Bool

/-- Observable behaviour of the imported `anthropic` module at the call
sites of lines 331-367 of app.py: presence of the pre-1.0 `Client`
class and prompt constants, and the outcomes of constructing the
clients and of the two request methods.  `completion` returns the
response dict of the old API; `messagesCreate` returns the texts of the
content blocks of the new API message. -/
structure AnthropicLib where
  hasClient : Bool
  hasConstants : Bool
  humanPromptConst : List Char
  aiPromptConst : List Char
  clientInit : Except PyErr Unit
  completion : List Char → Except PyErr (List (List Char × List Char))
  anthropicInit : Except PyErr Unit
  messagesCreate : List Char → Except PyErr (List (List Char))

/-- Lines 331-367 of app.py: the API call with its two adapter paths,
also counting the old-API and new-API requests actually issued.  The
old path runs first; any `AttributeError`/`TypeError` it raises falls
through to the new path; every other exception, and any exception of
the new path, escapes to the outer handler as the error message. -/
def callClaudeT (lib : AnthropicLib) (prompt : List Char) :
    Except (List Char) (List Char) × Nat × Nat :=
  let inner : Except PyErr (List Char) × Nat :=
    if lib.hasClient then
      match lib.clientInit with
      | .error e => (.error e, 0)
      | .ok _ =>
        if lib.hasConstants then
          match lib.completion
              (lib.humanPromptConst ++ (' ' :: prompt) ++ (' ' :: lib.aiPromptConst)) with
          | .ok resp =>
            match lookupD resp ("completion".toList) with
            | some s => (.ok s, 1)
            | none => (.error ⟨"\x27completion\x27".toList, false⟩, 1)
          | .error e => (.error e, 1)
        else (.error ⟨"Anthropic library version mismatch".toList, false⟩, 0)
    else (.error ⟨"Client class not found, trying newer API".toList, true⟩, 0)
  match inner with
  | (.ok c, o) => (.ok c, o, 0)
  | (.error e, o) =>
    if e.isAttrOrType then
      match lib.anthropicInit with
      | .error e2 => (.error e2.msg, o, 0)
      | .ok _ =>
        match lib.messagesCreate prompt with
        | .ok blocks =>
          match blocks with
          | t :: _ => (.ok t, o, 1)
          | [] => (.error ("list index out of range".toList), o, 1)
        | .error e2 => (.error e2.msg, o, 1)
    else (.error e.msg, o, 0)

/-- The normalized outcome of the API call: the stored plain string on
success, the exception message on failure. -/
def callClaude (lib : AnthropicLib) (prompt : List Char) : Except (List Char) (List Char) :=
  (callClaudeT lib prompt).1

/-- Observable state of one run of the Upload-and-Analyze tab. -/
structure RunOutcome where
  keyDiagnostic : Bool
  buttonDisabled : Bool
  session : Option (List Char)
  callError : Option (List Char)
  oldCalls : Nat
  newCalls : Nat

/-- Lines 252-380 of app.py: one pass of the analyze action.
`clicked` is the user gesture; a disabled button cannot fire, so the
handler runs only when the button is enabled and clicked.  `prev` is
the session `raw_response` before the run; on API failure it is left
untouched and the single error message is shown.  The two counters
record outbound old-API and new-API requests. -/
def runMain (secrets : SecretsStore) (files : List UploadedFile) (clicked : Bool)
    (lib : AnthropicLib) (prev : Option (List Char)) (env : Option (List Char)) :
    RunOutcome :=
  let apiKey := getApiKey secrets
  let keyDiag := !hasClaudeKey secrets
  let buttonDisabled := files.isEmpty || decide (apiKey = "not_found".toList)
  let pressed := clicked && !buttonDisabled
  if pressed then
    if apiKey = "not_found".toList then
      ⟨keyDiag, buttonDisabled, prev, none, 0, 0⟩
    else if files.isEmpty then
      ⟨keyDiag, buttonDisabled, prev, none, 0, 0⟩
    else
      let franchise_files := processFiles files
      let heuristics_content := load_default_heuristics env
      let prompt := create_prompt env franchise_files (some heuristics_content)
      match callClaudeT lib prompt with
      | (.ok content, o, n) => ⟨keyDiag, buttonDisabled, some content, none, o, n⟩
      | (.error e, o, n) =>
        ⟨keyDiag, buttonDisabled, prev, some ("Error calling Claude API: ".toList ++ e), o, n⟩
  else ⟨keyDiag, buttonDisabled, prev, none, 0, 0⟩

/-- Analysis-side: substring test (true when `pat` occurs contiguously
in `s`). -/
def containsSub (pat : List Char) : List Char → Bool
  | [] => pat.isEmpty
  | c :: rest => pat.isPrefixOf (c :: rest) || containsSub pat rest

/-- Lines 37-89 of app.py: the six `evaluation_framework` dimension names. -/
def dimensionNames : List (List Char) :=
  [("Market Opportunity Assessment").toList,
   ("Value Creation & Brand Positioning").toList,
   ("Operational Excellence & Knowledge Transfer").toList,
   ("Financial Structure & Alignment").toList,
   ("Leadership & Support Systems").toList,
   ("Adaptability & Growth Potential").toList]

/-- Analysis-side: the shape of the `<`-split of the document section in
front of a remainder split `X`. -/
def docSegs : List (List Char × List Char) → List (List Char) → List (List Char)
  | [], X => X
  | (n, c) :: rest, X =>
    [] :: ("document>\n").toList :: (("source>").toList ++ n) :: ("/source>\n").toList ::
      (("document_content>").toList ++ c) :: ("/document_content>\n").toList ::
      (docSegs rest X).modifyHead ((("/document>\n\n").toList) ++ ·)

/-- Analysis-side: one document block without its trailing blank-line
separator. -/
def documentBlockBody (p : List Char × List Char) : List Char :=
  ("<document>\n<source>").toList ++ p.1 ++ ("</source>\n<document_content>").toList ++
    p.2 ++ ("</document_content>\n</document>").toList

/-- Analysis-side: insertion of a key into an insertion-ordered key
list, keeping the first occurrence. -/
def insertKey {α : Type} [DecidableEq α] (ks : List α) (k : α) : List α :=
  if k ∈ ks then ks else ks ++ [k]

/-- Analysis-side: the distinct keys of a sequence, first occurrences
first, as produced by repeated Python dict assignment. -/
def firstKeys {α : Type} [DecidableEq α] (ns : List α) : List α :=
  ns.foldl insertKey []

/-! ### Remaining analysis-side definitions for the claim statements -/

/-- Lines 37-89 of app.py: all per-dimension criteria texts of the
`evaluation_framework` dict. -/
def dimensionCriteria : List (List Char) :=
  [("Market Demand Extrapolation: Evaluating potential demand across geographic regions").toList,
   ("Untapped Market Opportunity Recognition: Identifying underserved market segments").toList,
   ("Scale Velocity Imperative: Assessing the need for rapid scaling in replicable business models").toList,
   ("Value Cluster Analysis: Understanding the 3D relationships with stakeholders").toList,
   ("Community Business Model: Evaluating relationship-building vs. transaction-focused approaches").toList,
   ("Brand Promise Execution Discipline: Assessing commitment to delivering core value proposition").toList,
   ("Systematic Knowledge Capture: Evaluating documentation of processes and operational insights").toList,
   ("Network Innovation Acceleration: Assessing franchisee collaboration potential for innovation").toList,
   ("Work Hard Testing Heuristic: Evaluating performance assessment and quality control systems").toList,
   ("Capital-Asset Alignment Principle: Matching funding sources with business needs").toList,
   ("Fixed Cost Coverage Pricing: Analyzing pricing strategy based on cost structure").toList,
   ("Break-Even Timeline Analysis: Evaluating time to profitability and sustainability").toList,
   ("Harvest Planning Heuristic: Assessing long-term exit strategy potential").toList,
   ("Partner First Mentality: Evaluating the franchise relationship as a partnership").toList,
   ("Partnership vs. Employment Mindset: Assessing franchise owner treatment approach").toList,
   ("Service Leadership Model: Examining accountability and support from franchisor").toList,
   ("Dealing with Ambiguity Skill: Assessing how the franchise model handles uncertainty").toList,
   ("Problem-Opportunity Conversion: Evaluating ability to turn challenges into business growth").toList,
   ("Entrepreneurial Agility Imperative: Examining flexibility for adaptation in changing markets").toList]

/-- Analysis-side: `pat` occurs contiguously inside `s`. -/
def occursIn (pat s : List Char) : Prop :=
  ∃ x y, s = x ++ (pat ++ y)

/-- Analysis-side: number of occurrences of `x` in a list. -/
def countEq {α : Type} [DecidableEq α] (x : α) : List α → Nat
  | [] => 0
  | y :: t => (if y = x then 1 else 0) + countEq x t

/-- An anthropic module of the pre-1.0 shape whose completion response
carries `text` in its single `completion` field. -/
def oldShapeLib (text : List Char) : AnthropicLib :=
  ⟨true, true, ("\n\nHuman:").toList, ("\n\nAssistant:").toList, .ok (),
    fun _ => .ok [(("completion").toList, text)], .ok (), fun _ => .error ⟨[], false⟩⟩

/-- An anthropic module of the 1.0+ shape whose message carries `text`
as the text of its first content block. -/
def newShapeLib (text : List Char) : AnthropicLib :=
  ⟨false, false, [], [], .ok (), fun _ => .error ⟨[], false⟩, .ok (), fun _ => .ok [text]⟩

/-! ### Lemmas about `splitOnChar` -/

lemma splitOnChar_ne_nil (c : Char) (s : List Char) : splitOnChar c s ≠ [] := by
  cases s with
  | nil => simp [splitOnChar]
  | cons a rest =>
    simp only [splitOnChar]
    split
    · simp
    · split <;> simp

lemma splitOnChar_cons_self (c : Char) (s : List Char) :
    splitOnChar c (c :: s) = [] :: splitOnChar c s := by
  simp [splitOnChar]

lemma splitOnChar_cons_ne {a c : Char} (s : List Char) (h : a ≠ c) :
    splitOnChar c (a :: s) = (splitOnChar c s).modifyHead (a :: ·) := by
  simp only [splitOnChar, if_neg h]
  rcases hs : splitOnChar c s with _ | ⟨seg, segs⟩
  · exact absurd hs (splitOnChar_ne_nil c s)
  · simp [List.modifyHead]

lemma splitOnChar_append {c : Char} (l s : List Char) (h : ∀ a ∈ l, a ≠ c) :
    splitOnChar c (l ++ s) = (splitOnChar c s).modifyHead (l ++ ·) := by
  induction l with
  | nil =>
    rcases hs : splitOnChar c s with _ | ⟨seg, segs⟩
    · exact absurd hs (splitOnChar_ne_nil c s)
    · simp [List.modifyHead, hs]
  | cons a l ih =>
    have ha : a ≠ c := h a (List.mem_cons_self a l)
    rw [List.cons_append, splitOnChar_cons_ne _ ha,
      ih (fun x hx => h x (List.mem_cons_of_mem a hx)), List.modifyHead_modifyHead]
    rcases splitOnChar c s with _ | ⟨seg, segs⟩ <;> simp [List.modifyHead]

lemma splitOnChar_single {c : Char} (s : List Char) (h : ∀ a ∈ s, a ≠ c) :
    splitOnChar c s = [s] := by
  have := splitOnChar_append s ([] : List Char) h
  simpa [splitOnChar, List.modifyHead] using this

/-! ### Splitting the assembled prompt at `<` -/

lemma lit_doc_open :
    ("<document>\n<source>").toList =
      ('<' :: ("document>\n").toList) ++ ('<' :: ("source>").toList) := by decide

lemma lit_doc_mid :
    ("</source>\n<document_content>").toList =
      ('<' :: ("/source>\n").toList) ++ ('<' :: ("document_content>").toList) := by decide

lemma lit_doc_close :
    ("</document_content>\n</document>\n\n").toList =
      ('<' :: ("/document_content>\n").toList) ++ ('<' :: ("/document>\n\n").toList) := by decide

lemma lit_intro :
    promptIntro = ("\n").toList ++ ('<' :: ("documents>\n").toList) := by decide

lemma lit_afterDocs :
    promptAfterDocs =
      ("\n").toList ++ ('<' :: ("/documents>\n\nHere is a heuristics model:\n").toList) := by decide

lemma split_seg {l rest : List Char} (hl : ∀ a ∈ l, a ≠ '<') {X : List (List Char)}
    (h : splitOnChar '<' rest = [] :: X) :
    splitOnChar '<' ('<' :: (l ++ rest)) = [] :: l :: X := by
  rw [splitOnChar_cons_self, splitOnChar_append _ _ hl, h]
  simp [List.modifyHead]

lemma split_seg2 {l v rest : List Char} (hl : ∀ a ∈ l, a ≠ '<') (hv : ∀ a ∈ v, a ≠ '<')
    {X : List (List Char)} (h : splitOnChar '<' rest = [] :: X) :
    splitOnChar '<' ('<' :: (l ++ (v ++ rest))) = [] :: (l ++ v) :: X := by
  rw [splitOnChar_cons_self, splitOnChar_append _ _ hl, splitOnChar_append _ _ hv, h]
  simp [List.modifyHead]

lemma splitOnChar_documentBlock (n c s : List Char)
    (hn : ∀ a ∈ n, a ≠ '<') (hc : ∀ a ∈ c, a ≠ '<') :
    splitOnChar '<' (documentBlock n c ++ s) =
      [] :: ("document>\n").toList :: (("source>").toList ++ n) :: ("/source>\n").toList ::
        (("document_content>").toList ++ c) :: ("/document_content>\n").toList ::
        (splitOnChar '<' s).modifyHead ((("/document>\n\n").toList) ++ ·) := by
  have hA : splitOnChar '<' ('<' :: (("/document>\n\n").toList ++ s)) =
      [] :: (splitOnChar '<' s).modifyHead ((("/document>\n\n").toList) ++ ·) := by
    rw [splitOnChar_cons_self, splitOnChar_append _ _ (by decide)]
  have hB := split_seg (l := ("/document_content>\n").toList) (by decide) hA
  have hC := split_seg2 (l := ("document_content>").toList) (v := c) (by decide) hc hB
  have hD := split_seg (l := ("/source>\n").toList) (by decide) hC
  have hE := split_seg2 (l := ("source>").toList) (v := n) (by decide) hn hD
  have hF := split_seg (l := ("document>\n").toList) (by decide) hE
  rw [documentBlock, lit_doc_open, lit_doc_mid, lit_doc_close]
  simp only [List.cons_append, List.append_assoc, List.nil_append] at hF ⊢
  exact hF

lemma splitOnChar_documentContent (L : List (List Char × List Char)) (s : List Char)
    (hL : ∀ p ∈ L, (∀ a ∈ p.1, a ≠ '<') ∧ (∀ a ∈ p.2, a ≠ '<')) :
    splitOnChar '<' (documentContent L ++ s) = docSegs L (splitOnChar '<' s) := by
  induction L with
  | nil => simp [documentContent, docSegs]
  | cons p L' ih =>
    rcases p with ⟨n, c⟩
    have hn := (hL (n, c) (List.mem_cons_self _ _)).1
    have hc := (hL (n, c) (List.mem_cons_self _ _)).2
    rw [documentContent, List.append_assoc,
      splitOnChar_documentBlock n c _ hn hc,
      ih (fun q hq => hL q (List.mem_cons_of_mem _ hq))]
    rfl

/-! ### Reading the source names off the split prompt -/

lemma srcOf_nil : srcOf [] = none := by decide

lemma srcOf_ne_s {b : Char} (x : List Char) (hb : b ≠ 's') : srcOf (b :: x) = none := by
  have hp : srcOpen.isPrefixOf (b :: x) = false := by
    rw [show srcOpen = 's' :: ("ource>").toList from rfl]
    simp [List.isPrefixOf, Ne.symm hb]
  simp [srcOf, hp]

lemma srcOf_source_append (n : List Char) : srcOf (("source>").toList ++ n) = some n := by
  have hp : srcOpen.isPrefixOf (("source>").toList ++ n) = true := by
    rw [List.isPrefixOf_iff_prefix]
    exact List.prefix_append _ _
  simp only [srcOf, hp, if_pos]
  rw [show (7 : Nat) = (("source>").toList).length from rfl, List.drop_left]

lemma srcOf_p1 : srcOf (("document>\n").toList) = none := by decide

lemma srcOf_p3 : srcOf (("/source>\n").toList) = none := by decide

lemma srcOf_p5 : srcOf (("/document_content>\n").toList) = none := by decide

lemma srcOf_nl : srcOf (("\n").toList) = none := by decide

lemma srcOf_dc_append (c : List Char) :
    srcOf (("document_content>").toList ++ c) = none := by
  rw [show ("document_content>").toList ++ c =
    'd' :: (("ocument_content>").toList ++ c) from rfl]
  exact srcOf_ne_s _ (by decide)

lemma srcOf_p6_append (y : List Char) :
    srcOf (("/document>\n\n").toList ++ y) = none := by
  rw [show ("/document>\n\n").toList ++ y = '/' :: (("document>\n\n").toList ++ y) from rfl]
  exact srcOf_ne_s _ (by decide)

lemma srcOf_dlit_append (y : List Char) :
    srcOf (("documents>\n").toList ++ y) = none := by
  rw [show ("documents>\n").toList ++ y = 'd' :: (("ocuments>\n").toList ++ y) from rfl]
  exact srcOf_ne_s _ (by decide)

lemma srcOf_close_append (y : List Char) :
    srcOf (("/documents>\n\nHere is a heuristics model:\n").toList ++ y) = none := by
  rw [show ("/documents>\n\nHere is a heuristics model:\n").toList ++ y =
    '/' :: (("documents>\n\nHere is a heuristics model:\n").toList ++ y) from rfl]
  exact srcOf_ne_s _ (by decide)

lemma filterMap_srcOf_modifyHead (pre : List Char) (hpre : ∀ y, srcOf (pre ++ y) = none)
    (X : List (List Char)) (hhead : ∀ x, X.head? = some x → srcOf x = none) :
    (X.modifyHead (pre ++ ·)).filterMap srcOf = X.filterMap srcOf := by
  cases X with
  | nil => rfl
  | cons x t =>
    have hx : srcOf x = none := hhead x rfl
    simp [List.modifyHead, List.filterMap_cons, hx, hpre x]

lemma docSegs_head_none (L : List (List Char × List Char)) (X : List (List Char))
    (hX : ∀ x, X.head? = some x → srcOf x = none) :
    ∀ x, (docSegs L X).head? = some x → srcOf x = none := by
  cases L with
  | nil => exact hX
  | cons p rest =>
    rcases p with ⟨n, c⟩
    intro x hx
    simp only [docSegs, List.head?] at hx
    cases hx
    exact srcOf_nil

lemma filterMap_srcOf_docSegs (L : List (List Char × List Char)) (X : List (List Char))
    (hX : ∀ x, X.head? = some x → srcOf x = none) :
    (docSegs L X).filterMap srcOf = L.map Prod.fst ++ X.filterMap srcOf := by
  induction L with
  | nil => simp [docSegs]
  | cons p rest ih =>
    rcases p with ⟨n, c⟩
    rw [docSegs]
    rw [List.filterMap_cons, srcOf_nil]
    rw [List.filterMap_cons, srcOf_p1]
    rw [List.filterMap_cons, srcOf_source_append]
    rw [List.filterMap_cons, srcOf_p3]
    rw [List.filterMap_cons, srcOf_dc_append]
    rw [List.filterMap_cons, srcOf_p5]
    rw [filterMap_srcOf_modifyHead _ srcOf_p6_append _ (docSegs_head_none rest X hX)]
    rw [ih]
    rfl

lemma promptInstructions_no_lt : ∀ a ∈ promptInstructions, a ≠ '<' := by
  have h : (promptInstructions.all fun a => a != '<') = true := by decide
  intro a ha
  simpa using List.all_eq_true.mp h a ha

lemma create_prompt_some_ne (env : Option (List Char)) (L : List (List Char × List Char))
    (r : List Char) (hr : r ≠ []) :
    create_prompt env L (some r) =
      ("\n").toList ++ ('<' :: (("documents>\n").toList ++ (documentContent L ++
        (promptAfterDocs ++ (r ++ promptInstructions))))) := by
  show promptIntro ++ documentContent L ++ promptAfterDocs ++
      (if r = [] then load_default_heuristics env else r) ++ promptInstructions = _
  rw [if_neg hr, lit_intro]
  simp [List.append_assoc]

lemma srcNames_create_prompt (env : Option (List Char)) (L : List (List Char × List Char))
    (r : List Char)
    (hL : ∀ p ∈ L, (∀ a ∈ p.1, a ≠ '<') ∧ (∀ a ∈ p.2, a ≠ '<'))
    (hr : r ≠ []) (hrl : ∀ a ∈ r, a ≠ '<') :
    srcNames (create_prompt env L (some r)) = L.map Prod.fst := by
  have hrt : ∀ a ∈ r ++ promptInstructions, a ≠ '<' := by
    intro a ha
    rcases List.mem_append.mp ha with h | h
    · exact hrl a h
    · exact promptInstructions_no_lt a h
  have hT : splitOnChar '<' (promptAfterDocs ++ (r ++ promptInstructions)) =
      [("\n").toList,
        ("/documents>\n\nHere is a heuristics model:\n").toList ++ (r ++ promptInstructions)] := by
    rw [lit_afterDocs, List.append_assoc, splitOnChar_append _ _ (by decide),
      List.cons_append, splitOnChar_cons_self, splitOnChar_append _ _ (by decide),
      splitOnChar_single _ hrt]
    simp [List.modifyHead]
  have hXhead : ∀ x,
      (splitOnChar '<' (promptAfterDocs ++ (r ++ promptInstructions))).head? = some x →
      srcOf x = none := by
    rw [hT]
    intro x hx
    simp only [List.head?] at hx
    cases hx
    exact srcOf_nl
  have hsplit : splitOnChar '<' (create_prompt env L (some r)) =
      ("\n").toList ::
        (docSegs L (splitOnChar '<' (promptAfterDocs ++ (r ++ promptInstructions)))).modifyHead
          ((("documents>\n").toList) ++ ·) := by
    rw [create_prompt_some_ne env L r hr, splitOnChar_append _ _ (by decide),
      splitOnChar_cons_self, splitOnChar_append _ _ (by decide),
      splitOnChar_documentContent L _ hL]
    simp [List.modifyHead]
  rw [srcNames, hsplit, List.filterMap_cons, srcOf_nl,
    filterMap_srcOf_modifyHead _ srcOf_dlit_append _ (docSegs_head_none L _ hXhead),
    filterMap_srcOf_docSegs L _ hXhead, hT]
  rw [List.filterMap_cons, srcOf_nl, List.filterMap_cons, srcOf_close_append]
  simp

/-! ### The document section as blank-line separated blocks -/

lemma documentBlock_eq_body (n c : List Char) :
    documentBlock n c = documentBlockBody (n, c) ++ ("\n\n").toList := by
  rw [documentBlock, documentBlockBody,
    show ("</document_content>\n</document>\n\n").toList =
      ("</document_content>\n</document>").toList ++ ("\n\n").toList from by decide]
  simp [List.append_assoc]

lemma documentContent_blocks (L : List (List Char × List Char)) :
    documentContent L =
      strJoin (("\n\n").toList) (L.map documentBlockBody) ++
        (if L = [] then [] else ("\n\n").toList) := by
  induction L with
  | nil => simp [documentContent, strJoin]
  | cons p rest ih =>
    rcases p with ⟨n, c⟩
    rw [documentContent, documentBlock_eq_body, ih]
    cases rest with
    | nil => simp [documentContent, strJoin]
    | cons q rest' =>
      simp only [List.map_cons, strJoin, List.append_assoc]
      simp

/-! ### The name-keyed document dict built by the analyze loop -/

lemma lookupD_dictUpdate {α β : Type} [DecidableEq α] (m : List (α × β)) (k : α) (v : β)
    (q : α) :
    lookupD (dictUpdate m k v) q = if q = k then some v else lookupD m q := by
  induction m with
  | nil =>
    simp only [dictUpdate, lookupD]
    by_cases h : q = k
    · simp [h]
    · rw [if_neg (fun hh => h (hh.symm)), if_neg h]
  | cons p rest ih =>
    rcases p with ⟨k0, v0⟩
    simp only [dictUpdate]
    by_cases h0 : k0 = k
    · subst h0
      simp only [if_pos rfl, lookupD]
      by_cases hq : k0 = q
      · subst hq
        simp
      · rw [if_neg hq, if_neg (fun hh => hq (hh.symm)), if_neg hq]
    · rw [if_neg h0]
      simp only [lookupD]
      by_cases hq : k0 = q
      · subst hq
        rw [if_pos rfl, if_neg h0, if_pos rfl]
      · rw [if_neg hq, ih, if_neg hq]

lemma getLast?_cons_eq {α : Type} (a : α) (l : List α) :
    (a :: l).getLast? = match l.getLast? with
      | some x => some x
      | none => some a := by
  cases l with
  | nil => simp
  | cons b t =>
    rw [List.getLast?_cons_cons]
    rcases h : (b :: t).getLast? with _ | x
    · exact absurd (List.getLast?_eq_none_iff.mp h) (by simp)
    · simp

lemma lookupD_foldl_extract (files : List UploadedFile)
    (m : List (List Char × List Char)) (k : List Char) :
    lookupD (files.foldl (fun m f => dictUpdate m f.name (extract_text_from_file f)) m) k =
      match (files.filter (fun f => f.name = k)).getLast? with
      | some g => some (extract_text_from_file g)
      | none => lookupD m k := by
  induction files generalizing m with
  | nil => simp
  | cons f fs ih =>
    rw [List.foldl_cons, ih]
    by_cases hf : f.name = k
    · rw [List.filter_cons_of_pos (by simpa using hf), getLast?_cons_eq]
      rcases h : (fs.filter (fun f => f.name = k)).getLast? with _ | g
      · rw [h]
        simp [lookupD_dictUpdate, hf.symm]
      · rw [h]
    · rw [List.filter_cons_of_neg (by simpa using hf)]
      rcases h : (fs.filter (fun f => f.name = k)).getLast? with _ | g
      · rw [h]
        have hk : ¬ k = f.name := fun hh => hf (hh.symm)
        simp [lookupD_dictUpdate, hk]
      · rw [h]

/-- Specification of the lookup of the dict built by the analyze loop:
the value stored under a name is the extraction of the last uploaded
file carrying that name. -/
lemma lookupD_processFiles (files : List UploadedFile) (k : List Char) :
    lookupD (processFiles files) k =
      ((files.filter (fun f => f.name = k)).getLast?).map extract_text_from_file := by
  rw [processFiles, lookupD_foldl_extract]
  rcases h : (files.filter (fun f => f.name = k)).getLast? with _ | g
  · rw [h]
    rfl
  · rw [h]
    rfl

lemma keys_dictUpdate {α β : Type} [DecidableEq α] (m : List (α × β)) (k : α) (v : β) :
    (dictUpdate m k v).map Prod.fst = insertKey (m.map Prod.fst) k := by
  induction m with
  | nil => simp [dictUpdate, insertKey]
  | cons p rest ih =>
    rcases p with ⟨k0, v0⟩
    by_cases h0 : k0 = k
    · subst h0
      simp [dictUpdate, insertKey]
    · have hne : ¬ k = k0 := fun hh => h0 (hh.symm)
      by_cases hmem : k ∈ rest.map Prod.fst
      · simp [dictUpdate, h0, ih, insertKey, hmem, hne]
      · simp [dictUpdate, h0, ih, insertKey, hmem, hne]

lemma keys_foldl_dictUpdate (files : List UploadedFile)
    (m : List (List Char × List Char)) :
    ((files.foldl (fun m f => dictUpdate m f.name (extract_text_from_file f)) m).map
        Prod.fst) =
      (files.map (fun f => f.name)).foldl insertKey (m.map Prod.fst) := by
  induction files generalizing m with
  | nil => simp
  | cons f fs ih =>
    rw [List.foldl_cons, ih, List.map_cons, List.foldl_cons, keys_dictUpdate]

/-- The keys of the document dict are the distinct upload names in
first-occurrence order. -/
lemma keys_processFiles (files : List UploadedFile) :
    (processFiles files).map Prod.fst = firstKeys (files.map (fun f => f.name)) := by
  rw [processFiles, keys_foldl_dictUpdate, firstKeys]
  rfl

lemma nodup_foldl_insertKey {α : Type} [DecidableEq α] (ns : List α) (acc : List α)
    (h : acc.Nodup) : (ns.foldl insertKey acc).Nodup := by
  induction ns generalizing acc with
  | nil => exact h
  | cons n ns ih =>
    rw [List.foldl_cons]
    refine ih _ ?_
    by_cases hm : n ∈ acc
    · simpa [insertKey, hm] using h
    · simp [insertKey, hm, List.nodup_append, h]

/-- The document dict never holds two entries with the same name. -/
lemma nodup_firstKeys {α : Type} [DecidableEq α] (ns : List α) : (firstKeys ns).Nodup :=
  nodup_foldl_insertKey ns [] List.nodup_nil

lemma mem_dictUpdate {α β : Type} [DecidableEq α] {m : List (α × β)} {k : α} {v : β}
    {p : α × β} (h : p ∈ dictUpdate m k v) : p ∈ m ∨ p = (k, v) := by
  induction m with
  | nil =>
    simp only [dictUpdate] at h
    right
    simpa using h
  | cons q rest ih =>
    rcases q with ⟨k0, v0⟩
    by_cases h0 : k0 = k
    · subst h0
      simp only [dictUpdate, if_pos rfl] at h
      rcases List.mem_cons.mp h with h1 | h1
      · right
        simpa using h1
      · left
        exact List.mem_cons_of_mem _ h1
    · simp only [dictUpdate, if_neg h0] at h
      rcases List.mem_cons.mp h with h1 | h1
      · left
        simp [h1]
      · rcases ih h1 with h2 | h2
        · left
          exact List.mem_cons_of_mem _ h2
        · right
          exact h2

lemma mem_foldl_dictUpdate (files : List UploadedFile)
    (m : List (List Char × List Char)) (p : List Char × List Char)
    (h : p ∈ files.foldl (fun m f => dictUpdate m f.name (extract_text_from_file f)) m) :
    p ∈ m ∨ ∃ f, f ∈ files ∧ p = (f.name, extract_text_from_file f) := by
  induction files generalizing m with
  | nil => exact Or.inl h
  | cons f fs ih =>
    rw [List.foldl_cons] at h
    rcases ih _ h with h1 | h1
    · rcases mem_dictUpdate h1 with h2 | h2
      · exact Or.inl h2
      · exact Or.inr ⟨f, List.mem_cons_self _ _, h2⟩
    · rcases h1 with ⟨g, hg, hp⟩
      exact Or.inr ⟨g, List.mem_cons_of_mem _ hg, hp⟩

/-- Every entry of the document dict comes from one of the uploaded
files. -/
lemma mem_processFiles {files : List UploadedFile} {p : List Char × List Char}
    (h : p ∈ processFiles files) :
    ∃ f, f ∈ files ∧ p = (f.name, extract_text_from_file f) := by
  rcases mem_foldl_dictUpdate files [] p h with h1 | h1
  · simp at h1
  · exact h1

/-- The analyze action issues at most one old-API request and at most
one new-API request, whatever the library shape and outcome: there is
no retry anywhere in the call code. -/
lemma callClaudeT_calls_le (lib : AnthropicLib) (prompt : List Char) :
    (callClaudeT lib prompt).2.1 ≤ 1 ∧ (callClaudeT lib prompt).2.2 ≤ 1 := by
  unfold callClaudeT
  repeat' split
  all_goals simp [apply_ite, ite_apply]

lemma countEq_eq_zero {α : Type} [DecidableEq α] {x : α} {l : List α} (h : x ∉ l) :
    countEq x l = 0 := by
  induction l with
  | nil => rfl
  | cons y t ih =>
    have hy : ¬ y = x := fun hh => h (hh ▸ List.mem_cons_self y t)
    simp only [countEq, if_neg hy]
    simpa using ih (fun ht => h (List.mem_cons_of_mem _ ht))

lemma countEq_eq_one_of_nodup {α : Type} [DecidableEq α] {x : α} {l : List α}
    (d : l.Nodup) (h : x ∈ l) : countEq x l = 1 := by
  induction l with
  | nil => exact absurd h (List.not_mem_nil x)
  | cons y t ih =>
    rcases List.mem_cons.mp h with h1 | h1
    · subst h1
      have hx : x ∉ t := (List.nodup_cons.mp d).1
      simp [countEq, countEq_eq_zero hx]
    · have hy : ¬ y = x := fun hh => (List.nodup_cons.mp d).1 (hh ▸ h1)
      simp only [countEq, if_neg hy]
      simpa using ih (List.nodup_cons.mp d).2 h1

/-! ### Claim theorems -/

/-- C1, counterexample: the claim says undecodable byte sequences are
replaced, but line 98 of app.py decodes with `errors="ignore"`: on the
file `a.txt` with the single undecodable byte 0xFF the extracted
content is the empty string, not the replacement character U+FFFD that
decoding with replacement would give. -/
theorem c1_counterexample :
    fileExtension (("a.txt").toList) = ("txt").toList ∧
    extract_text_from_file ⟨("a.txt").toList, [0xFF], .ok [], .ok []⟩ = [] ∧
    utf8Decode true [0xFF] = [Char.ofNat 0xFFFD] ∧
    extract_text_from_file ⟨("a.txt").toList, [0xFF], .ok [], .ok []⟩ ≠
      utf8Decode true [0xFF] := by
  refine ⟨by decide, by decide, by decide, by decide⟩

/-- C1, amended: for every uploaded file whose extension is txt or md
(case-insensitive), the extracted content equals the raw bytes decoded
as UTF-8 with undecodable byte sequences dropped (Python
`errors="ignore"`), not replaced. -/
theorem c1_txt_md_decode_ignore (f : UploadedFile)
    (h : fileExtension f.name = ("txt").toList ∨ fileExtension f.name = ("md").toList) :
    extract_text_from_file f = utf8Decode false f.bytes := by
  simp only [extract_text_from_file]
  rw [if_pos h]

/-- C1, witness: the file `b.md` with bytes "hi". -/
theorem c1_txt_md_decode_ignore_witness :
    (fileExtension (("b.md").toList) = ("txt").toList ∨
      fileExtension (("b.md").toList) = ("md").toList) ∧
    extract_text_from_file ⟨("b.md").toList, [0x68, 0x69], .ok [], .ok []⟩ =
      utf8Decode false [0x68, 0x69] :=
  ⟨by decide, c1_txt_md_decode_ignore ⟨("b.md").toList, [0x68, 0x69], .ok [], .ok []⟩ (by decide)⟩

/-- C10, counterexample: a dotless file named `md` is not reported as
unsupported; the whole name is taken as the extension, which is a
supported one, so the bytes are decoded as text instead. -/
theorem c10_counterexample :
    ('.' ∉ ("md").toList) ∧
    extract_text_from_file ⟨("md").toList, [0x68, 0x69], .ok [], .ok []⟩ = ("hi").toList ∧
    extract_text_from_file ⟨("md").toList, [0x68, 0x69], .ok [], .ok []⟩ ≠
      ("[Unsupported file type: md]").toList := by
  refine ⟨by decide, by decide, by decide⟩

/-- C10, amended: extension detection takes the whole lowercased
filename when the name has no dot, and whenever the lowercased
extension is not one of the five supported ones the extraction result
is exactly the unsupported-type marker holding that lowercased
extension. -/
theorem c10_unsupported_marker_lowercased (f : UploadedFile)
    (h : fileExtension f.name ∉
      [("txt").toList, ("md").toList, ("pdf").toList, ("docx").toList, ("doc").toList]) :
    extract_text_from_file f =
      ("[Unsupported file type: ").toList ++ fileExtension f.name ++ ("]").toList ∧
    (('.' ∉ f.name) → fileExtension f.name = f.name.map Char.toLower) := by
  constructor
  · have h1 : ¬ (fileExtension f.name = ("txt").toList ∨
        fileExtension f.name = ("md").toList) := by
      rintro (hh | hh) <;> exact h (by simp [hh])
    have h2 : ¬ fileExtension f.name = ("pdf").toList := fun hh => h (by simp [hh])
    have h3 : ¬ (fileExtension f.name = ("docx").toList ∨
        fileExtension f.name = ("doc").toList) := by
      rintro (hh | hh) <;> exact h (by simp [hh])
    simp only [extract_text_from_file]
    rw [if_neg h1, if_neg h2, if_neg h3]
  · intro hdot
    have hnd : ∀ a ∈ f.name, a ≠ '.' := by
      intro a ha hh
      subst hh
      exact hdot ha
    rw [fileExtension, splitOnChar_single _ hnd]
    rfl

/-- C10, witness: the dotless file `README` with an unsupported
(whole-name) extension. -/
theorem c10_unsupported_marker_lowercased_witness :
    (fileExtension (("README").toList) ∉
      [("txt").toList, ("md").toList, ("pdf").toList, ("docx").toList, ("doc").toList]) ∧
    (extract_text_from_file ⟨("README").toList, [], .ok [], .ok []⟩ =
        ("[Unsupported file type: ").toList ++ fileExtension (("README").toList) ++
          ("]").toList ∧
      (('.' ∉ ("README").toList) →
        fileExtension (("README").toList) = (("README").toList).map Char.toLower)) :=
  ⟨by decide, c10_unsupported_marker_lowercased ⟨("README").toList, [], .ok [], .ok []⟩ (by decide)⟩

/-- C3, counterexample: with the empty rubric string supplied, Python
truthiness (`if heuristics_content:`) routes line 147-151 of app.py to
the default heuristics, so the prompt depends on the resource-file
state: two environments whose resource files read `A` and `B` give
different prompts for identical `(files, rubric)` arguments. -/
theorem c3_counterexample :
    create_prompt (some (("A").toList)) [] (some []) ≠
      create_prompt (some (("B").toList)) [] (some []) := by
  intro h
  exact absurd (congrArg (fun l => l.get? 56) h) (by decide)

/-- C3, amended: prompt assembly is deterministic and state-independent
whenever the supplied rubric string is non-empty: the assembled prompt
is then a pure function of the ordered document map and the rubric, and
the default-heuristics resource state cannot influence it.  (An empty
rubric string is falsy in Python, so create_prompt then falls back to
the state-dependent default rubric.) -/
theorem c3_deterministic_nonempty_rubric (env1 env2 : Option (List Char))
    (files : List (List Char × List Char)) (r : List Char) (hr : r ≠ []) :
    create_prompt env1 files (some r) = create_prompt env2 files (some r) := by
  show promptIntro ++ documentContent files ++ promptAfterDocs ++
      (if r = [] then load_default_heuristics env1 else r) ++ promptInstructions =
    promptIntro ++ documentContent files ++ promptAfterDocs ++
      (if r = [] then load_default_heuristics env2 else r) ++ promptInstructions
  rw [if_neg hr, if_neg hr]

/-- C3, witness: the same non-empty rubric under two different resource
environments. -/
theorem c3_deterministic_nonempty_rubric_witness :
    (("R").toList ≠ []) ∧
    create_prompt (some (("A").toList)) [(("a.txt").toList, ("x").toList)]
        (some (("R").toList)) =
      create_prompt (some (("B").toList)) [(("a.txt").toList, ("x").toList)]
        (some (("R").toList)) :=
  ⟨by decide, c3_deterministic_nonempty_rubric (some (("A").toList)) (some (("B").toList))
    [(("a.txt").toList, ("x").toList)] (("R").toList) (by decide)⟩

/-- C5: when the rubric override is absent and the default resource
cannot be read, load_default_heuristics returns, without raising, the
non-empty embedded fallback that names the six fixed dimensions and
carries none of the per-dimension criteria texts, and prompt assembly
still succeeds with that fallback interpolated. -/
theorem c5_fallback_rubric :
    load_default_heuristics none = fallbackHeuristics ∧
    load_default_heuristics none ≠ [] ∧
    (dimensionNames.all fun d => containsSub d (load_default_heuristics none)) = true ∧
    (dimensionCriteria.all fun c => !(containsSub c (load_default_heuristics none))) = true ∧
    occursIn (load_default_heuristics none) (create_prompt none [] none) := by
  refine ⟨rfl, by decide, by decide, by decide, ?_⟩
  refine ⟨promptIntro ++ documentContent [] ++ promptAfterDocs, promptInstructions, ?_⟩
  show promptIntro ++ documentContent [] ++ promptAfterDocs ++
      load_default_heuristics none ++ promptInstructions = _
  simp [List.append_assoc]

/-- C8: the two adapter paths of lines 336-367 of app.py are
extensionally equal on responses carrying the same text: an old-shape
module answering through the single `completion` field and a new-shape
module answering through the first content block of a structured
message normalize to the same stored plain string. -/
theorem c8_response_shapes_normalize_equal (text prompt : List Char) :
    callClaude (oldShapeLib text) prompt = .ok text ∧
    callClaude (newShapeLib text) prompt = .ok text ∧
    callClaude (oldShapeLib text) prompt = callClaude (newShapeLib text) prompt := by
  refine ⟨?_, ?_, ?_⟩ <;>
    simp [callClaude, callClaudeT, oldShapeLib, newShapeLib, lookupD]

/-- C6: whenever the secret store carries no claude credential, the
setup error is shown, the analyze button is disabled, and no outbound
request of either API shape is attempted, whatever is clicked and
whatever was uploaded; the stored session result also stays unchanged. -/
theorem c6_missing_key_blocks_analysis (s : SecretsStore) (files : List UploadedFile)
    (clicked : Bool) (lib : AnthropicLib) (prev env : Option (List Char))
    (h : hasClaudeKey s = false) :
    (runMain s files clicked lib prev env).keyDiagnostic = true ∧
    (runMain s files clicked lib prev env).buttonDisabled = true ∧
    (runMain s files clicked lib prev env).oldCalls = 0 ∧
    (runMain s files clicked lib prev env).newCalls = 0 ∧
    (runMain s files clicked lib prev env).session = prev := by
  have hkey : getApiKey s = ("not_found").toList := by
    rcases s with ⟨ak⟩
    rcases ak with _ | ⟨ck⟩
    · rfl
    · rcases ck with _ | k
      · rfl
      · simp [hasClaudeKey] at h
  simp [runMain, hkey, h]

/-- C6, witness: the secret store with no api-keys section at all. -/
theorem c6_missing_key_blocks_analysis_witness :
    hasClaudeKey ⟨none⟩ = false ∧
    ((runMain ⟨none⟩ [] true
        ⟨false, false, [], [], .ok (), fun _ => .error ⟨[], false⟩, .ok (),
          fun _ => .error ⟨[], false⟩⟩ none none).keyDiagnostic = true ∧
      (runMain ⟨none⟩ [] true
        ⟨false, false, [], [], .ok (), fun _ => .error ⟨[], false⟩, .ok (),
          fun _ => .error ⟨[], false⟩⟩ none none).buttonDisabled = true ∧
      (runMain ⟨none⟩ [] true
        ⟨false, false, [], [], .ok (), fun _ => .error ⟨[], false⟩, .ok (),
          fun _ => .error ⟨[], false⟩⟩ none none).oldCalls = 0 ∧
      (runMain ⟨none⟩ [] true
        ⟨false, false, [], [], .ok (), fun _ => .error ⟨[], false⟩, .ok (),
          fun _ => .error ⟨[], false⟩⟩ none none).newCalls = 0 ∧
      (runMain ⟨none⟩ [] true
        ⟨false, false, [], [], .ok (), fun _ => .error ⟨[], false⟩, .ok (),
          fun _ => .error ⟨[], false⟩⟩ none none).session = none) :=
  ⟨by decide, c6_missing_key_blocks_analysis ⟨none⟩ [] true
    ⟨false, false, [], [], .ok (), fun _ => .error ⟨[], false⟩, .ok (),
      fun _ => .error ⟨[], false⟩⟩ none none (by decide)⟩

/-- C7: when the outbound call fails, the exception is caught at the
call boundary and surfaced as the single message of line 379 of app.py,
the stored session result is left exactly as it was, and neither API
shape is requested more than once (no retry). -/
theorem c7_api_error_preserves_session (s : SecretsStore) (files : List UploadedFile)
    (lib : AnthropicLib) (prev env : Option (List Char)) (e : List Char)
    (hk : getApiKey s ≠ ("not_found").toList) (hf : files ≠ [])
    (hcall : callClaude lib (create_prompt env (processFiles files)
        (some (load_default_heuristics env))) = .error e) :
    (runMain s files true lib prev env).session = prev ∧
    (runMain s files true lib prev env).callError =
      some (("Error calling Claude API: ").toList ++ e) ∧
    (runMain s files true lib prev env).oldCalls ≤ 1 ∧
    (runMain s files true lib prev env).newCalls ≤ 1 := by
  have hemp : files.isEmpty = false := by
    cases files with
    | nil => exact absurd rfl hf
    | cons a t => rfl
  rcases hT : callClaudeT lib (create_prompt env (processFiles files)
      (some (load_default_heuristics env))) with ⟨res, o, n⟩
  have hres : res = .error e := by
    rw [callClaude, hT] at hcall
    exact hcall
  subst hres
  have hcounts := callClaudeT_calls_le lib (create_prompt env (processFiles files)
      (some (load_default_heuristics env)))
  rw [hT] at hcounts
  simp only [ne_eq] at hk
  simp at hk
  simp [runMain, hemp, hk, hT, hcounts.1, hcounts.2]

/-- C7, witness: a failing new-shape module under a present credential
and one uploaded text file; the previous session value survives. -/
theorem c7_api_error_preserves_session_witness :
    (getApiKey ⟨some ⟨some (("k").toList)⟩⟩ ≠ ("not_found").toList) ∧
    ([(⟨("a.txt").toList, [0x68], .ok [], .ok []⟩ : UploadedFile)] ≠ []) ∧
    (callClaude
        ⟨false, false, [], [], .ok (), fun _ => .error ⟨[], false⟩, .ok (),
          fun _ => .error ⟨("boom").toList, false⟩⟩
        (create_prompt none
          (processFiles [⟨("a.txt").toList, [0x68], .ok [], .ok []⟩])
          (some (load_default_heuristics none))) = .error (("boom").toList)) ∧
    ((runMain ⟨some ⟨some (("k").toList)⟩⟩
        [⟨("a.txt").toList, [0x68], .ok [], .ok []⟩] true
        ⟨false, false, [], [], .ok (), fun _ => .error ⟨[], false⟩, .ok (),
          fun _ => .error ⟨("boom").toList, false⟩⟩
        (some (("old").toList)) none).session = some (("old").toList) ∧
      (runMain ⟨some ⟨some (("k").toList)⟩⟩
        [⟨("a.txt").toList, [0x68], .ok [], .ok []⟩] true
        ⟨false, false, [], [], .ok (), fun _ => .error ⟨[], false⟩, .ok (),
          fun _ => .error ⟨("boom").toList, false⟩⟩
        (some (("old").toList)) none).callError =
        some (("Error calling Claude API: ").toList ++ ("boom").toList) ∧
      (runMain ⟨some ⟨some (("k").toList)⟩⟩
        [⟨("a.txt").toList, [0x68], .ok [], .ok []⟩] true
        ⟨false, false, [], [], .ok (), fun _ => .error ⟨[], false⟩, .ok (),
          fun _ => .error ⟨("boom").toList, false⟩⟩
        (some (("old").toList)) none).oldCalls ≤ 1 ∧
      (runMain ⟨some ⟨some (("k").toList)⟩⟩
        [⟨("a.txt").toList, [0x68], .ok [], .ok []⟩] true
        ⟨false, false, [], [], .ok (), fun _ => .error ⟨[], false⟩, .ok (),
          fun _ => .error ⟨("boom").toList, false⟩⟩
        (some (("old").toList)) none).newCalls ≤ 1) :=
  ⟨by decide, by decide, by decide,
    c7_api_error_preserves_session ⟨some ⟨some (("k").toList)⟩⟩
      [⟨("a.txt").toList, [0x68], .ok [], .ok []⟩]
      ⟨false, false, [], [], .ok (), fun _ => .error ⟨[], false⟩, .ok (),
        fun _ => .error ⟨("boom").toList, false⟩⟩
      (some (("old").toList)) none (("boom").toList)
      (by decide) (by decide) (by decide)⟩

/-- C2: for every ordered document map, every supplied name appears as
a source-tag interior exactly once and in input order (under the
delimiter-soundness proviso that names, texts and the rubric contain no
raw angle-bracket opener, without which the tag structure is not well
defined), and the document blocks are concatenated in input order
separated by blank lines. -/
theorem c2_source_tags_once_in_order (env : Option (List Char))
    (files : List (List Char × List Char)) (r : List Char)
    (hL : ∀ p ∈ files, (∀ a ∈ p.1, a ≠ '<') ∧ (∀ a ∈ p.2, a ≠ '<'))
    (hr : r ≠ []) (hrl : ∀ a ∈ r, a ≠ '<') :
    srcNames (create_prompt env files (some r)) = files.map Prod.fst ∧
    ((files.map Prod.fst).Nodup →
      ∀ n ∈ files.map Prod.fst,
        countEq n (srcNames (create_prompt env files (some r))) = 1) ∧
    documentContent files =
      strJoin (("\n\n").toList) (files.map documentBlockBody) ++
        (if files = [] then [] else ("\n\n").toList) := by
  have hs := srcNames_create_prompt env files r hL hr hrl
  refine ⟨hs, ?_, documentContent_blocks files⟩
  intro hnd n hn
  rw [hs]
  exact countEq_eq_one_of_nodup hnd hn

/-- C2, witness: the two-document map of the end-to-end scenario. -/
theorem c2_source_tags_once_in_order_witness :
    ((∀ p ∈ [(("a.txt").toList, ("Hello").toList), (("b.md").toList, ("World").toList)],
        (∀ a ∈ p.1, a ≠ '<') ∧ (∀ a ∈ p.2, a ≠ '<')) ∧
      (("R").toList ≠ []) ∧ (∀ a ∈ ("R").toList, a ≠ '<')) ∧
    (srcNames (create_prompt none
        [(("a.txt").toList, ("Hello").toList), (("b.md").toList, ("World").toList)]
        (some (("R").toList))) =
      [(("a.txt").toList, ("Hello").toList), (("b.md").toList, ("World").toList)].map
        Prod.fst ∧
    (([(("a.txt").toList, ("Hello").toList), (("b.md").toList, ("World").toList)].map
        Prod.fst).Nodup →
      ∀ n ∈ [(("a.txt").toList, ("Hello").toList), (("b.md").toList, ("World").toList)].map
          Prod.fst,
        countEq n (srcNames (create_prompt none
          [(("a.txt").toList, ("Hello").toList), (("b.md").toList, ("World").toList)]
          (some (("R").toList)))) = 1) ∧
    documentContent [(("a.txt").toList, ("Hello").toList), (("b.md").toList, ("World").toList)] =
      strJoin (("\n\n").toList)
          ([(("a.txt").toList, ("Hello").toList), (("b.md").toList, ("World").toList)].map
            documentBlockBody) ++
        (if [(("a.txt").toList, ("Hello").toList), (("b.md").toList, ("World").toList)] =
            ([] : List (List Char × List Char)) then [] else ("\n\n").toList)) :=
  ⟨⟨by decide, by decide, by decide⟩,
    c2_source_tags_once_in_order none
      [(("a.txt").toList, ("Hello").toList), (("b.md").toList, ("World").toList)]
      (("R").toList) (by decide) (by decide) (by decide)⟩

/-- C4: when the extraction library raises on a PDF or Word file, the
exception is caught and turned into the bracketed error marker naming
the format label the code uses for the file (PDF for pdf, DOCX for both
Word extensions), and every file of any batch still gets an entry in
the processed document map, so one failing document never aborts the
batch. -/
theorem c4_extraction_error_markers (f : UploadedFile) (m : List Char)
    (files : List UploadedFile)
    (h : (fileExtension f.name = ("pdf").toList ∧ f.pdfPages = .error m) ∨
      ((fileExtension f.name = ("docx").toList ∨ fileExtension f.name = ("doc").toList) ∧
        f.docParas = .error m)) :
    extract_text_from_file f =
      ("[Error extracting text from ").toList ++
        (if fileExtension f.name = ("pdf").toList then ("PDF").toList
          else ("DOCX").toList) ++
        ((": ").toList ++ m ++ ("]").toList) ∧
    (∀ g ∈ files, (lookupD (processFiles files) g.name).isSome = true) := by
  constructor
  · rcases h with ⟨hpdf, herr⟩ | ⟨hdoc, herr⟩
    · have h1 : ¬ (fileExtension f.name = ("txt").toList ∨
          fileExtension f.name = ("md").toList) := by
        rw [hpdf]
        decide
      simp only [extract_text_from_file]
      rw [if_neg h1, if_pos hpdf, herr, if_pos hpdf]
      rw [show ("[Error extracting text from PDF: ").toList =
        ("[Error extracting text from ").toList ++ (("PDF").toList ++ (": ").toList)
        from by decide]
      simp [List.append_assoc]
    · have hne_pdf : ¬ fileExtension f.name = ("pdf").toList := by
        rcases hdoc with hh | hh <;> rw [hh] <;> decide
      have h1 : ¬ (fileExtension f.name = ("txt").toList ∨
          fileExtension f.name = ("md").toList) := by
        rintro (hA | hA) <;> rcases hdoc with hh | hh <;>
          exact absurd (hh.symm.trans hA) (by decide)
      simp only [extract_text_from_file]
      rw [if_neg h1, if_neg hne_pdf, if_pos hdoc, herr, if_neg hne_pdf]
      rw [show ("[Error extracting text from DOCX: ").toList =
        ("[Error extracting text from ").toList ++ (("DOCX").toList ++ (": ").toList)
        from by decide]
      simp [List.append_assoc]
  · intro g hg
    rw [lookupD_processFiles]
    have hmem : g ∈ files.filter (fun f => f.name = g.name) :=
      List.mem_filter.mpr ⟨hg, by simp⟩
    have hne : files.filter (fun f => f.name = g.name) ≠ [] := by
      intro hnil
      rw [hnil] at hmem
      exact List.not_mem_nil g hmem
    rcases hlast : (files.filter (fun f => f.name = g.name)).getLast? with _ | x
    · exact absurd (List.getLast?_eq_none_iff.mp hlast) hne
    · simp [hlast]

/-- C4, witness: a PDF whose library raises `bad xref` inside a batch
with a healthy Markdown file. -/
theorem c4_extraction_error_markers_witness :
    ((fileExtension (("brochure.pdf").toList) = ("pdf").toList ∧
        (Except.error (("bad xref").toList) :
          Except (List Char) (List (List Char))) = .error (("bad xref").toList)) ∨
      ((fileExtension (("brochure.pdf").toList) = ("docx").toList ∨
        fileExtension (("brochure.pdf").toList) = ("doc").toList) ∧
        (Except.ok [] : Except (List Char) (List (List Char))) =
          .error (("bad xref").toList))) ∧
    (extract_text_from_file
        ⟨("brochure.pdf").toList, [], .error (("bad xref").toList), .ok []⟩ =
      ("[Error extracting text from ").toList ++
        (if fileExtension (("brochure.pdf").toList) = ("pdf").toList then ("PDF").toList
          else ("DOCX").toList) ++
        ((": ").toList ++ ("bad xref").toList ++ ("]").toList) ∧
    (∀ g ∈ [(⟨("brochure.pdf").toList, [], .error (("bad xref").toList), .ok []⟩ :
          UploadedFile),
        ⟨("b.md").toList, [0x69], .ok [], .ok []⟩],
      (lookupD (processFiles
        [⟨("brochure.pdf").toList, [], .error (("bad xref").toList), .ok []⟩,
          ⟨("b.md").toList, [0x69], .ok [], .ok []⟩]) g.name).isSome = true)) :=
  ⟨by decide,
    c4_extraction_error_markers
      ⟨("brochure.pdf").toList, [], .error (("bad xref").toList), .ok []⟩
      (("bad xref").toList)
      [⟨("brochure.pdf").toList, [], .error (("bad xref").toList), .ok []⟩,
        ⟨("b.md").toList, [0x69], .ok [], .ok []⟩]
      (by decide)⟩

/-- C9: repeated upload names overwrite in the name-keyed dict: the
stored value under a name is the extraction of the last file carrying
it, the keys are the distinct names in first-occurrence order with no
duplicates, and the assembled prompt carries exactly one source tag per
distinct name (same delimiter-soundness proviso as C2). -/
theorem c9_duplicate_names_last_wins (files : List UploadedFile)
    (env : Option (List Char)) (r : List Char)
    (hfiles : ∀ f ∈ files,
      (∀ a ∈ f.name, a ≠ '<') ∧ (∀ a ∈ extract_text_from_file f, a ≠ '<'))
    (hr : r ≠ []) (hrl : ∀ a ∈ r, a ≠ '<') :
    (∀ k, lookupD (processFiles files) k =
      ((files.filter (fun f => f.name = k)).getLast?).map extract_text_from_file) ∧
    (processFiles files).map Prod.fst = firstKeys (files.map (fun f => f.name)) ∧
    (firstKeys (files.map (fun f => f.name))).Nodup ∧
    srcNames (create_prompt env (processFiles files) (some r)) =
      firstKeys (files.map (fun f => f.name)) := by
  have hL : ∀ p ∈ processFiles files, (∀ a ∈ p.1, a ≠ '<') ∧ (∀ a ∈ p.2, a ≠ '<') := by
    intro p hp
    rcases mem_processFiles hp with ⟨f, hf, hpe⟩
    subst hpe
    exact ⟨(hfiles f hf).1, (hfiles f hf).2⟩
  refine ⟨fun k => lookupD_processFiles files k, keys_processFiles files,
    nodup_firstKeys _, ?_⟩
  rw [srcNames_create_prompt env (processFiles files) r hL hr hrl, keys_processFiles]

/-- C9, witness: two txt files both named `a.txt`; the dict keeps one
entry holding the second file content. -/
theorem c9_duplicate_names_last_wins_witness :
    ((∀ f ∈ [(⟨("a.txt").toList, [0x68], .ok [], .ok []⟩ : UploadedFile),
        ⟨("a.txt").toList, [0x69], .ok [], .ok []⟩],
      (∀ a ∈ f.name, a ≠ '<') ∧ (∀ a ∈ extract_text_from_file f, a ≠ '<')) ∧
      (("R").toList ≠ []) ∧ (∀ a ∈ ("R").toList, a ≠ '<')) ∧
    ((∀ k, lookupD (processFiles
        [(⟨("a.txt").toList, [0x68], .ok [], .ok []⟩ : UploadedFile),
          ⟨("a.txt").toList, [0x69], .ok [], .ok []⟩]) k =
      (([(⟨("a.txt").toList, [0x68], .ok [], .ok []⟩ : UploadedFile),
          ⟨("a.txt").toList, [0x69], .ok [], .ok []⟩].filter
            (fun f => f.name = k)).getLast?).map extract_text_from_file) ∧
    (processFiles [(⟨("a.txt").toList, [0x68], .ok [], .ok []⟩ : UploadedFile),
        ⟨("a.txt").toList, [0x69], .ok [], .ok []⟩]).map Prod.fst =
      firstKeys ([(⟨("a.txt").toList, [0x68], .ok [], .ok []⟩ : UploadedFile),
        ⟨("a.txt").toList, [0x69], .ok [], .ok []⟩].map (fun f => f.name)) ∧
    (firstKeys ([(⟨("a.txt").toList, [0x68], .ok [], .ok []⟩ : UploadedFile),
        ⟨("a.txt").toList, [0x69], .ok [], .ok []⟩].map (fun f => f.name))).Nodup ∧
    srcNames (create_prompt none (processFiles
        [(⟨("a.txt").toList, [0x68], .ok [], .ok []⟩ : UploadedFile),
          ⟨("a.txt").toList, [0x69], .ok [], .ok []⟩]) (some (("R").toList))) =
      firstKeys ([(⟨("a.txt").toList, [0x68], .ok [], .ok []⟩ : UploadedFile),
        ⟨("a.txt").toList, [0x69], .ok [], .ok []⟩].map (fun f => f.name))) :=
  ⟨⟨by decide, by decide, by decide⟩,
    c9_duplicate_names_last_wins
      [⟨("a.txt").toList, [0x68], .ok [], .ok []⟩,
        ⟨("a.txt").toList, [0x69], .ok [], .ok []⟩]
      none (("R").toList) (by decide) (by decide) (by decide)⟩
